import Mathlib

/-!
Verification of the iteration-centric orchestration and measurement core of
the LASIF/Salvus full-waveform-inversion workflow driven by the tutorial
notebook `Lasif_with_salvus.ipynb`.

The notebook in this repository only calls into the `lasif` and
`salvus` libraries (`lasif.api`, `lasif.salvus_utils`); the implementations
of the components it drives are not part of the repository.  Every component
below is therefore modelled from the specification's component contracts:
the Iteration Manager, the Job Lifecycle Tracker, the Preprocessing
Pipeline, the Window Selector, the Misfit Engine and the Station Weight
Calculator.  Traces are modelled as lists of rational samples at a fixed
sample spacing, windows as intervals, and the tracker as explicit state
passed through each operation.
-/

namespace Lasif

/-! ## Iteration Manager -/

/-- Modelled from the spec: a LASIF project holds the events added to it and
the named iterations, each an immutable set of events selected at creation
(`lasif.api.set_up_iteration` / `lasif.api.list_events` are not in the
repository, only their call sites in the notebook). -/
structure Project where
  events : List String
  iterations : List (String × List String)
deriving DecidableEq

/-- Modelled from the spec: errors of `create_iteration` — a duplicate
iteration name or an empty event selection. -/
inductive IterationError
  | duplicateIterationError
  | emptyEventSetError
deriving DecidableEq

/-- Modelled from the spec: `create_iteration(name, event_selection)` fails
with `DuplicateIterationError` if the name exists and with
`EmptyEventSetError` if the selection is empty; otherwise it persists the
iteration's event membership. -/
def create_iteration (p : Project) (name : String) (sel : List String) :
    Except IterationError Project :=
  if p.iterations.any (fun it => it.1 == name) then
    .error .duplicateIterationError
  else if sel.isEmpty then
    .error .emptyEventSetError
  else
    .ok { p with iterations := (name, sel) :: p.iterations }

/-- The project state after a `create_iteration` call: the committed new
state on success, the untouched previous state on failure. -/
def create_iteration_state (p : Project) (name : String) (sel : List String) :
    Project :=
  match create_iteration p name sel with
  | .ok p' => p'
  | .error _ => p

/-- Modelled from the spec: `set_up_iteration` with no explicit event
selection defaults to every event currently in the project
(`lasif.api.set_up_iteration` is not in the repository). -/
def set_up_iteration (p : Project) (name : String)
    (events : Option (List String)) : Except IterationError Project :=
  create_iteration p name (events.getD p.events)

/-- Modelled from the spec: `list_events` returns all project events, or the
events of a named iteration when one is given
(`lasif.api.list_events` is not in the repository). -/
def list_events (p : Project) (iteration : Option String) : List String :=
  match iteration with
  | none => p.events
  | some name =>
    match p.iterations.lookup name with
    | some evs => evs
    | none => []

/-! ## Station Weight Calculator -/

/-- Modelled from the spec: a station has an identifier and geographic
coordinates (`lasif.api.compute_station_weights` is not in the repository). -/
structure Station where
  id : String
  latitude : ℚ
  longitude : ℚ
deriving DecidableEq

/-- Kernel-density style closeness of two stations: large when the stations
are geographically close, at most 1. -/
def stationCloseness (s u : Station) : ℚ :=
  1 / (1 + ((s.latitude - u.latitude) ^ 2 + (s.longitude - u.longitude) ^ 2))

/-- Spatial density seen by station `s`: the summed closeness of every
station of the list (including itself, contributing 1). -/
def stationDensity (s : Station) (stations : List Station) : ℚ :=
  (stations.map (stationCloseness s)).sum

/-- Modelled from the spec: a station's weight is inversely related to its
proximity/redundancy to its geographic neighbours; an isolated station gets
the baseline 1. -/
def stationWeight (s : Station) (stations : List Station) : ℚ :=
  1 / stationDensity s stations

/-- Modelled from the spec: `compute_weights(stations)` produces the
station-to-weight mapping, deterministic given the station geometry. -/
def compute_station_weights (stations : List Station) : List (String × ℚ) :=
  stations.map (fun s => (s.id, stationWeight s stations))

/-! ## Job Lifecycle Tracker -/

/-- Simulation type of a remote Salvus job. -/
inductive SimType
  | forward
  | adjoint
deriving DecidableEq

/-- State of a remote job as tracked per handle. -/
inductive JobStatus
  | pending
  | running
  | succeeded
  | failed
deriving DecidableEq

/-- A poll of the external compute service; `unknown` is returned when the
service cannot be reached and is a transient outcome, not a job state. -/
inductive PollOutcome
  | pending
  | running
  | succeeded
  | failed
  | unknown
deriving DecidableEq

/-- Key identifying a simulation request: event, iteration and simulation
type. -/
structure JobKey where
  event : String
  iteration : String
  simType : SimType
deriving DecidableEq

/-- A tracked job: its key, the external handle, its current status and the
cached output location once retrieved. -/
structure JobRecord where
  key : JobKey
  handle : ℕ
  status : JobStatus
  retrievedLocation : Option ℕ
deriving DecidableEq

/-- Modelled from the spec: the Job Lifecycle Tracker maps simulation
requests to remote job handles; it also counts the calls made to the
external fetch interface (`lasif.salvus_utils` is not in the repository). -/
structure Tracker where
  jobs : List JobRecord
  nextHandle : ℕ
  fetchCount : ℕ
deriving DecidableEq

/-- A job is live while it is pending or running. -/
def isLive : JobStatus → Bool
  | .pending => true
  | .running => true
  | .succeeded => false
  | .failed => false

/-- The live job currently tracked for a key, if any. -/
def findLiveJob (t : Tracker) (k : JobKey) : Option JobRecord :=
  t.jobs.find? (fun j => decide (j.key = k) && isLive j.status)

/-- Modelled from the spec: submitting a simulation for a key returns the
existing handle when a live job for that key is already tracked, and only
otherwise creates a new remote job with a fresh handle
(`salvus_utils.submit_salvus_simulation` is not in the repository). -/
def submit_salvus_simulation (t : Tracker) (k : JobKey) : Tracker × ℕ :=
  match findLiveJob t k with
  | some j => (t, j.handle)
  | none =>
    ({ jobs := { key := k, handle := t.nextHandle, status := .pending,
                 retrievedLocation := none } :: t.jobs,
       nextHandle := t.nextHandle + 1,
       fetchCount := t.fetchCount }, t.nextHandle)

/-- At most one live job is tracked for any key. -/
def AtMostOneLive (t : Tracker) : Prop :=
  ∀ k : JobKey,
    (t.jobs.filter (fun j => decide (j.key = k) && isLive j.status)).length ≤ 1

/-- Modelled from the spec: one step of the per-job state machine
`pending → running → {succeeded, failed}`; terminal states are permanent and
an `unknown` poll outcome leaves the state unchanged rather than being
collapsed into `failed`. -/
def stepStatus (s : JobStatus) (p : PollOutcome) : JobStatus :=
  match s with
  | .succeeded => .succeeded
  | .failed => .failed
  | _ =>
    match p with
    | .unknown => s
    | .pending => .pending
    | .running => .running
    | .succeeded => .succeeded
    | .failed => .failed

/-- The job state after a sequence of poll outcomes. -/
def runPolls (s : JobStatus) : List PollOutcome → JobStatus
  | [] => s
  | p :: ps => runPolls (stepStatus s p) ps

/-- Every state the tracker records along a sequence of poll outcomes,
starting state included. -/
def pollStates (s : JobStatus) : List PollOutcome → List JobStatus
  | [] => [s]
  | p :: ps => s :: pollStates (stepStatus s p) ps

/-- Errors of `retrieve`: the handle is not tracked, or the job has not
succeeded. -/
inductive RetrieveError
  | jobNotFound
  | jobNotSucceededError
deriving DecidableEq

/-- The output location of a succeeded job on the external service. -/
def outputLocation (j : JobRecord) : ℕ :=
  j.handle

/-- Cache the output location on the tracked job with the given handle. -/
def markRetrieved (h : ℕ) (loc : ℕ) (jobs : List JobRecord) : List JobRecord :=
  jobs.map (fun j =>
    if j.handle = h then { j with retrievedLocation := some loc } else j)

/-- Modelled from the spec: `retrieve(job_handle)` fails with
`JobNotSucceededError` when the job's status is not `succeeded`; on the
first successful retrieval it fetches the output (incrementing the fetch
count) and caches the location; a later call returns the cached location
without fetching again (`lasif.salvus_utils.retrieve_salvus_simulations` is
not in the repository). -/
def retrieve_salvus_simulations (t : Tracker) (h : ℕ) :
    Except RetrieveError (Tracker × ℕ) :=
  match t.jobs.find? (fun j => decide (j.handle = h)) with
  | none => .error .jobNotFound
  | some j =>
    if j.status = .succeeded then
      match j.retrievedLocation with
      | some loc => .ok (t, loc)
      | none =>
        let loc := outputLocation j
        .ok ({ t with jobs := markRetrieved h loc t.jobs,
                      fetchCount := t.fetchCount + 1 }, loc)
    else .error .jobNotSucceededError

/-! ## Preprocessing Pipeline -/

/-- Modelled from the spec: a raw trace with the metadata the pipeline
checks — instrument response availability, sample rate and a
signal-to-noise estimate (`lasif.api.process_data` is not in the
repository). -/
structure RawTrace where
  station : String
  hasInstrumentResponse : Bool
  sampleRate : ℚ
  snr : ℚ
  samples : List ℚ
deriving DecidableEq

/-- A processed trace ready for comparison with synthetics. -/
structure ProcessedTrace where
  station : String
  samples : List ℚ
deriving DecidableEq

/-- Configuration of the preprocessing pipeline: target sample rate with
tolerance and the signal-to-noise threshold. -/
structure ProcessConfig where
  targetSampleRate : ℚ
  sampleRateTolerance : ℚ
  snrThreshold : ℚ
deriving DecidableEq

/-- A trace lacks required metadata when it has no instrument response or
its sample rate differs from the target beyond the tolerance. -/
def lacksMetadata (cfg : ProcessConfig) (tr : RawTrace) : Bool :=
  !tr.hasInstrumentResponse ||
    decide (cfg.sampleRateTolerance < |tr.sampleRate - cfg.targetSampleRate|)

/-- A trace fails the signal-to-noise threshold check. -/
def failsSnrCheck (cfg : ProcessConfig) (tr : RawTrace) : Bool :=
  decide (tr.snr < cfg.snrThreshold)

/-- Demean a trace (a simple stand-in for the detrend/filter step). -/
def demean (samples : List ℚ) : List ℚ :=
  let m := samples.sum / samples.length
  samples.map (fun x => x - m)

/-- Modelled from the spec: `process(raw_trace)` returns `none` (discard)
when the trace lacks required metadata or fails the signal-to-noise check,
and the processed trace otherwise; discarding is an expected outcome, not
an error. -/
def process (cfg : ProcessConfig) (tr : RawTrace) : Option ProcessedTrace :=
  if lacksMetadata cfg tr || failsSnrCheck cfg tr then none
  else some { station := tr.station, samples := demean tr.samples }

/-- Modelled from the spec: batch processing discards unusable traces and
continues with the rest. -/
def process_data (cfg : ProcessConfig) (traces : List RawTrace) :
    List ProcessedTrace :=
  traces.filterMap (process cfg)

/-- The stations that reach the downstream window-selection and misfit
stages for an iteration: exactly the stations of the traces that survived
preprocessing. -/
def downstreamStations (cfg : ProcessConfig) (traces : List RawTrace) :
    List String :=
  (process_data cfg traces).map (fun p => p.station)

/-! ## Window Selector -/

/-- Configuration of the window selector: the admissible cross-correlation
lag as a fraction of the dominant period, and the signal-to-noise ratio
threshold. -/
structure WindowConfig where
  maxLagFraction : ℚ
  dominantPeriod : ℚ
  snrThreshold : ℚ
deriving DecidableEq

/-- Modelled from the spec: a candidate window segment produced by phase
alignment of observed and synthetic traces — its time interval, the optimal
cross-correlation lag found for it and its local signal-to-noise estimate. -/
structure CandidateSegment where
  startTime : ℚ
  endTime : ℚ
  bestLag : ℚ
  snr : ℚ
deriving DecidableEq

/-- A candidate passes the phase-jump guard when its optimal lag does not
exceed the configured fraction of the dominant period. -/
def passesPhaseTest (cfg : WindowConfig) (c : CandidateSegment) : Bool :=
  decide (|c.bestLag| ≤ cfg.maxLagFraction * cfg.dominantPeriod)

/-- A candidate passes the signal-to-noise test. -/
def passesSnrTest (cfg : WindowConfig) (c : CandidateSegment) : Bool :=
  decide (cfg.snrThreshold ≤ c.snr)

/-- Insert a window into a list kept sorted by start time. -/
def insertWindow (x : ℚ × ℚ) : List (ℚ × ℚ) → List (ℚ × ℚ)
  | [] => [x]
  | y :: ys => if x.1 ≤ y.1 then x :: y :: ys else y :: insertWindow x ys

/-- Sort windows by start time. -/
def sortWindows : List (ℚ × ℚ) → List (ℚ × ℚ)
  | [] => []
  | x :: xs => insertWindow x (sortWindows xs)

/-- Merge overlapping windows of a list sorted by start time, so that the
result satisfies the disjointness invariant. -/
def mergeWindows : List (ℚ × ℚ) → List (ℚ × ℚ)
  | [] => []
  | [a] => [a]
  | a :: b :: rest =>
    if b.1 ≤ a.2 then mergeWindows ((a.1, max a.2 b.2) :: rest)
    else a :: mergeWindows (b :: rest)
termination_by l => l.length

/-- Modelled from the spec: `select_windows` keeps the candidate segments
that pass the phase-jump and signal-to-noise tests, clips them to the trace
bounds `[0, duration]`, drops empty segments, and merges the survivors into
disjoint windows sorted by start time
(`lasif.api.select_windows_multiprocessing` is not in the repository). -/
def select_windows (duration : ℚ) (cfg : WindowConfig)
    (cands : List CandidateSegment) : List (ℚ × ℚ) :=
  let admissible := cands.filter
    (fun c => passesPhaseTest cfg c && passesSnrTest cfg c)
  let clipped := admissible.map
    (fun c => (max 0 c.startTime, min duration c.endTime))
  let valid := clipped.filter (fun w => decide (w.1 < w.2))
  mergeWindows (sortWindows valid)

/-! ## Misfit Engine: Waveform L2 kernel -/

/-- One pass over the paired samples of the observed and synthetic traces,
carrying the index of the current sample: accumulates the squared
difference over the samples inside the window and builds the adjoint
source trace, which holds the difference inside the window and 0 outside. -/
def l2MeasureAux : List ℚ → List ℚ → ℕ → ℕ × ℕ → ℚ × List ℚ
  | o :: os, s :: ss, i, w =>
    let r := l2MeasureAux os ss (i + 1) w
    if w.1 ≤ i ∧ i < w.2 then ((s - o) ^ 2 + r.1, (s - o) :: r.2)
    else (r.1, 0 :: r.2)
  | _, _, _, _ => (0, [])

/-- Modelled from the spec: the Waveform L2 measurement
`measure(observed, synthetic, window)` of the Misfit Engine invoked through
`lasif.api.calculate_adjoint_sources_multiprocessing` (not in the
repository): the misfit is half the discretised integral of the squared
difference over the window (sample spacing `dt`), the adjoint source is the
difference inside the window and 0 outside.  The window is the half-open
sample index range `[w.1, w.2)`. -/
def measure_waveform_l2 (observed synthetic : List ℚ) (w : ℕ × ℕ) (dt : ℚ) :
    ℚ × List ℚ :=
  let r := l2MeasureAux observed synthetic 0 w
  (1 / 2 * dt * r.1, r.2)

/-- Windows sorted by start time. -/
def StartSorted (l : List (ℚ × ℚ)) : Prop :=
  List.Pairwise (fun u v : ℚ × ℚ => u.1 ≤ v.1) l

/-! ## Concrete sample data used to exercise the components -/

/-- A sample project with two events and one existing iteration. -/
def sampleProject : Project :=
  { events := ["EV_1", "EV_2"], iterations := [("first", ["EV_1", "EV_2"])] }

/-- A sample station at the origin. -/
def sampleStationA : Station := { id := "ST_A", latitude := 0, longitude := 0 }

/-- A second sample station. -/
def sampleStationB : Station := { id := "ST_B", latitude := 1, longitude := 2 }

/-- A sample job key. -/
def sampleKey : JobKey :=
  { event := "EV_1", iteration := "first", simType := .forward }

/-- A live (running) job for the sample key. -/
def sampleLiveJob : JobRecord :=
  { key := sampleKey, handle := 7, status := .running, retrievedLocation := none }

/-- A tracker holding one live job. -/
def sampleLiveTracker : Tracker :=
  { jobs := [sampleLiveJob], nextHandle := 8, fetchCount := 0 }

/-- A succeeded, not yet retrieved job for the sample key. -/
def sampleDoneJob : JobRecord :=
  { key := sampleKey, handle := 3, status := .succeeded, retrievedLocation := none }

/-- A tracker holding one succeeded, not yet retrieved job. -/
def sampleDoneTracker : Tracker :=
  { jobs := [sampleDoneJob], nextHandle := 4, fetchCount := 0 }

/-- The tracker state after the first retrieval from `sampleDoneTracker`. -/
def sampleRetrievedTracker : Tracker :=
  { jobs := [{ sampleDoneJob with retrievedLocation := some 3 }],
    nextHandle := 4, fetchCount := 1 }

/-- A sample preprocessing configuration. -/
def sampleProcessConfig : ProcessConfig :=
  { targetSampleRate := 1, sampleRateTolerance := 1 / 10, snrThreshold := 2 }

/-- A raw trace missing its instrument response. -/
def sampleBadTrace : RawTrace :=
  { station := "AA", hasInstrumentResponse := false, sampleRate := 1,
    snr := 5, samples := [1, 2] }

/-- A raw trace passing every preprocessing check. -/
def sampleGoodTrace : RawTrace :=
  { station := "BB", hasInstrumentResponse := true, sampleRate := 1,
    snr := 5, samples := [1, 2, 3] }

/-- A sample window-selector configuration. -/
def sampleWindowConfig : WindowConfig :=
  { maxLagFraction := 1 / 10, dominantPeriod := 30, snrThreshold := 3 }

/-- A candidate segment passing the phase and signal-to-noise tests. -/
def sampleGoodSegment : CandidateSegment :=
  { startTime := 2, endTime := 5, bestLag := 1, snr := 4 }

/-- A candidate segment failing both tests. -/
def sampleBadSegment : CandidateSegment :=
  { startTime := 2, endTime := 5, bestLag := 10, snr := 1 }

/-! ## Iteration Manager theorems -/

/-- C8: `create_iteration(name, event_selection)` fails with
`DuplicateIterationError` when an iteration with that name already exists
and with `EmptyEventSetError` when the event selection is empty; in both
failure cases the project state after the call is the unchanged previous
state — no partial iteration state is committed. -/
theorem create_iteration_error_cases (p : Project) (name : String)
    (sel : List String) :
    ((∃ it ∈ p.iterations, it.1 = name) →
      create_iteration p name sel = .error .duplicateIterationError ∧
      create_iteration_state p name sel = p) ∧
    ((∀ it ∈ p.iterations, it.1 ≠ name) → sel = [] →
      create_iteration p name sel = .error .emptyEventSetError ∧
      create_iteration_state p name sel = p) := by
  constructor
  · rintro ⟨it, hit, hname⟩
    have hany : p.iterations.any (fun it => it.1 == name) = true :=
      List.any_eq_true.mpr ⟨it, hit, by simp [hname]⟩
    simp [create_iteration, create_iteration_state, hany]
  · intro hno hsel
    have hany : p.iterations.any (fun it => it.1 == name) = false := by
      rw [List.any_eq_false]
      intro it hit
      simpa using hno it hit
    subst hsel
    simp [create_iteration, create_iteration_state, hany]

/-- Exercises C8 on the sample project: creating an iteration named like the
existing one fails with the duplicate error, creating one with an empty
selection fails with the empty-set error, and neither call changes the
project. -/
theorem create_iteration_error_cases_witness :
    (create_iteration sampleProject "first" ["EV_1"] =
        .error .duplicateIterationError ∧
      create_iteration_state sampleProject "first" ["EV_1"] = sampleProject) ∧
    (create_iteration sampleProject "second" [] =
        .error .emptyEventSetError ∧
      create_iteration_state sampleProject "second" [] = sampleProject) := by
  refine ⟨(create_iteration_error_cases sampleProject "first" ["EV_1"]).1 ?_,
    (create_iteration_error_cases sampleProject "second" []).2 ?_ rfl⟩
  · exact ⟨("first", ["EV_1", "EV_2"]), by simp [sampleProject], rfl⟩
  · intro it hit
    simp [sampleProject] at hit
    simp [hit]

/-- C10: setting up an iteration without an explicit event selection
succeeds (on a project with at least one event and a fresh iteration name)
and creates the iteration over every event currently in the project:
listing the events of that iteration returns exactly the same list as
listing all project events. -/
theorem set_up_iteration_default_scope (p : Project) (name : String)
    (h1 : ∀ it ∈ p.iterations, it.1 ≠ name) (h2 : p.events ≠ []) :
    ∃ p', set_up_iteration p name none = .ok p' ∧
      list_events p' (some name) = list_events p' none ∧
      list_events p' none = p.events := by
  have hany : p.iterations.any (fun it => it.1 == name) = false := by
    rw [List.any_eq_false]
    intro it hit
    simpa using h1 it hit
  have hne : p.events.isEmpty = false := by
    simpa [List.isEmpty_iff] using h2
  refine ⟨{ p with iterations := (name, p.events) :: p.iterations }, ?_, ?_, rfl⟩
  · simp [set_up_iteration, create_iteration, hany, hne]
  · simp [list_events, List.lookup]

/-- Exercises C10 on the sample project with a fresh iteration name. -/
theorem set_up_iteration_default_scope_witness :
    ∃ p', set_up_iteration sampleProject "second" none = .ok p' ∧
      list_events p' (some "second") = list_events p' none ∧
      list_events p' none = sampleProject.events := by
  refine set_up_iteration_default_scope sampleProject "second" ?_ ?_
  · intro it hit
    simp [sampleProject] at hit
    simp [hit]
  · simp [sampleProject]

/-! ## Station Weight Calculator theorems -/

/-- C9: `compute_weights` is invariant under input reordering — permuting
the station list permutes the produced association list, and exactly the
same station/weight pairs occur in both outputs, so the station-to-weight
mapping is unchanged; the computation itself is a pure function of the
station geometry. -/
theorem compute_station_weights_perm_invariant (l l' : List Station)
    (h : l.Perm l') :
    (compute_station_weights l).Perm (compute_station_weights l') ∧
    ∀ pr : String × ℚ,
      pr ∈ compute_station_weights l ↔ pr ∈ compute_station_weights l' := by
  have hden : ∀ s, stationDensity s l = stationDensity s l' := fun s =>
    (h.map (stationCloseness s)).sum_eq
  have hw : ∀ s, stationWeight s l = stationWeight s l' := fun s => by
    unfold stationWeight
    rw [hden]
  have hmap : compute_station_weights l' =
      l'.map (fun s => (s.id, stationWeight s l)) :=
    List.map_congr_left (fun a _ => by rw [hw])
  have hperm : (compute_station_weights l).Perm (compute_station_weights l') := by
    rw [hmap]
    exact h.map _
  exact ⟨hperm, fun pr => hperm.mem_iff⟩

/-- Exercises C9 on two sample stations and the swap permutation. -/
theorem compute_station_weights_perm_invariant_witness :
    (compute_station_weights [sampleStationA, sampleStationB]).Perm
      (compute_station_weights [sampleStationB, sampleStationA]) :=
  (compute_station_weights_perm_invariant
    [sampleStationA, sampleStationB] [sampleStationB, sampleStationA]
    (List.Perm.swap sampleStationB sampleStationA [])).1

/-! ## Job state machine theorems -/

/-- C4: in the job state machine, an `unknown` poll outcome is transient —
it leaves every state unchanged and is never recorded as `failed`; starting
from `pending`, any number of `unknown` outcomes followed by `succeeded`
ends in `succeeded` without the tracker ever recording `failed`; and the
terminal states are permanent, in particular a failed job never moves back
to a non-terminal state under the same handle. -/
theorem poll_state_machine (n : ℕ) :
    runPolls .pending (List.replicate n .unknown ++ [.succeeded]) =
      .succeeded ∧
    (∀ st ∈ pollStates .pending (List.replicate n .unknown ++ [.succeeded]),
      st ≠ .failed) ∧
    (∀ s, stepStatus s .unknown = s) ∧
    (∀ po, stepStatus .failed po = .failed) ∧
    (∀ po, stepStatus .succeeded po = .succeeded) := by
  refine ⟨?_, ?_, fun s => by cases s <;> rfl, fun po => rfl, fun po => rfl⟩
  · induction n with
    | zero => rfl
    | succ m ih => simpa [List.replicate_succ, runPolls] using ih
  · induction n with
    | zero =>
      intro st hst
      simp [pollStates, runPolls, stepStatus] at hst
      rcases hst with h | h <;> simp [h]
    | succ m ih =>
      intro st hst
      simp only [List.replicate_succ, List.cons_append, pollStates] at hst
      rcases List.mem_cons.mp hst with h | h
      · simp [h]
      · exact ih st (by simpa [stepStatus] using h)

/-- Exercises C4 with three `unknown` polls before `succeeded`. -/
theorem poll_state_machine_witness :
    runPolls .pending (List.replicate 3 .unknown ++ [.succeeded]) =
      .succeeded ∧
    JobStatus.pending ≠ JobStatus.failed ∧
    stepStatus .running .unknown = .running ∧
    stepStatus .failed .unknown = .failed :=
  ⟨(poll_state_machine 3).1,
    (poll_state_machine 3).2.1 .pending (by decide),
    (poll_state_machine 3).2.2.1 .running,
    (poll_state_machine 3).2.2.2.1 .unknown⟩

/-! ## Job Lifecycle Tracker theorems -/

/-- C3: submitting a simulation for a key with a live (pending or running)
job already tracked returns the existing handle and leaves the tracker —
and hence the set of remote jobs — unchanged; moreover a submission
preserves the invariant that at most one live job is tracked per key. -/
theorem submit_salvus_simulation_no_duplicate (t : Tracker) (k : JobKey) :
    (∀ j, findLiveJob t k = some j →
      submit_salvus_simulation t k = (t, j.handle)) ∧
    (AtMostOneLive t → AtMostOneLive (submit_salvus_simulation t k).1) := by
  constructor
  · intro j hj
    unfold submit_salvus_simulation
    rw [hj]
  · intro hml k'
    unfold submit_salvus_simulation
    cases hfind : findLiveJob t k with
    | some j => simpa using hml k'
    | none =>
      have hnone : ∀ j ∈ t.jobs,
          ¬ ((decide (j.key = k) && isLive j.status) = true) := fun j hj =>
        by simpa using List.find?_eq_none.mp hfind j hj
      simp only [List.filter_cons]
      by_cases hk : k = k'
      · subst hk
        have hfilter :
            t.jobs.filter (fun j => decide (j.key = k) && isLive j.status)
              = [] :=
          List.filter_eq_nil_iff.mpr hnone
        rw [hfilter]
        split <;> simp
      · have : (decide ((k : JobKey) = k') && isLive .pending) = false := by
          simp [hk]
        simp only [this, Bool.false_eq_true, if_neg]
        exact hml k'

/-- Exercises C3: resubmitting the sample key while its job is running
returns handle 7 and the unchanged tracker, which still has at most one
live job per key. -/
theorem submit_salvus_simulation_no_duplicate_witness :
    submit_salvus_simulation sampleLiveTracker sampleKey =
      (sampleLiveTracker, 7) ∧
    AtMostOneLive (submit_salvus_simulation sampleLiveTracker sampleKey).1 := by
  have h := submit_salvus_simulation_no_duplicate sampleLiveTracker sampleKey
  refine ⟨h.1 sampleLiveJob rfl, h.2 ?_⟩
  intro k
  simpa [sampleLiveTracker] using
    List.length_filter_le
      (fun j => decide (j.key = k) && isLive j.status) sampleLiveTracker.jobs

/-- C5: retrieval requires success — when the tracked job for a handle has
a status other than `succeeded`, `retrieve` fails with
`JobNotSucceededError` and produces no output state, and any successful
retrieval implies the tracked job's status was `succeeded`. -/
theorem retrieve_salvus_simulations_requires_success (t : Tracker) (h : ℕ) :
    (∀ j, t.jobs.find? (fun x => decide (x.handle = h)) = some j →
      j.status ≠ .succeeded →
      retrieve_salvus_simulations t h = .error .jobNotSucceededError) ∧
    (∀ t' loc, retrieve_salvus_simulations t h = .ok (t', loc) →
      ∃ j, t.jobs.find? (fun x => decide (x.handle = h)) = some j ∧
        j.status = .succeeded) := by
  constructor
  · intro j hj hst
    unfold retrieve_salvus_simulations
    rw [hj]
    simp [hst]
  · intro t' loc hok
    unfold retrieve_salvus_simulations at hok
    split at hok
    · exact absurd hok (by simp)
    · next j hfind =>
      refine ⟨j, hfind, ?_⟩
      by_cases hst : j.status = .succeeded
      · exact hst
      · rw [if_neg hst] at hok
        exact absurd hok (by simp)

/-- Exercises C5: retrieving the still-running sample job fails with
`JobNotSucceededError`. -/
theorem retrieve_salvus_simulations_requires_success_witness :
    retrieve_salvus_simulations sampleLiveTracker 7 =
      .error .jobNotSucceededError :=
  (retrieve_salvus_simulations_requires_success sampleLiveTracker 7).1
    sampleLiveJob rfl (by decide)

/-- Finding a job by handle in a retrieval-marked list finds the marked
version of the job found in the original list. -/
theorem find?_markRetrieved (jobs : List JobRecord) (h loc : ℕ) :
    (markRetrieved h loc jobs).find? (fun x => decide (x.handle = h)) =
      (jobs.find? (fun x => decide (x.handle = h))).map
        (fun j => if j.handle = h then
          { j with retrievedLocation := some loc } else j) := by
  induction jobs with
  | nil => rfl
  | cons j js ih =>
    by_cases hj : j.handle = h
    · simp only [markRetrieved, List.map_cons]
      rw [if_pos hj]
      rw [List.find?_cons_of_pos _ (by simp [hj]),
        List.find?_cons_of_pos _ (by simp [hj])]
      simp [hj]
    · simp only [markRetrieved, List.map_cons]
      rw [if_neg hj]
      rw [List.find?_cons_of_neg _ (by simp [hj]),
        List.find?_cons_of_neg _ (by simp [hj])]
      simpa [markRetrieved] using ih

/-- Retrieval of an untracked handle reports it as not found. -/
theorem retrieve_eq_of_find_none (t : Tracker) (h : ℕ)
    (hfind : t.jobs.find? (fun x => decide (x.handle = h)) = none) :
    retrieve_salvus_simulations t h = .error .jobNotFound := by
  unfold retrieve_salvus_simulations
  rw [hfind]

/-- Unfolding of `retrieve` when the handle is tracked. -/
theorem retrieve_eq_of_find_some (t : Tracker) (h : ℕ) (j : JobRecord)
    (hfind : t.jobs.find? (fun x => decide (x.handle = h)) = some j) :
    retrieve_salvus_simulations t h =
      if j.status = .succeeded then
        match j.retrievedLocation with
        | some loc => .ok (t, loc)
        | none =>
          .ok ({ t with jobs := markRetrieved h (outputLocation j) t.jobs,
                        fetchCount := t.fetchCount + 1 }, outputLocation j)
      else .error .jobNotSucceededError := by
  unfold retrieve_salvus_simulations
  rw [hfind]

/-- C6: `retrieve` is idempotent after success — if a retrieval returned
the tracker state `t'` and output location `loc`, retrieving the same
handle again from `t'` returns exactly the same location and the unchanged
state `t'`; in particular the fetch count of `t'` is not incremented, so
the external fetch is not invoked again. -/
theorem retrieve_salvus_simulations_idempotent (t : Tracker) (h : ℕ)
    (t' : Tracker) (loc : ℕ)
    (hok : retrieve_salvus_simulations t h = .ok (t', loc)) :
    retrieve_salvus_simulations t' h = .ok (t', loc) := by
  cases hfind : t.jobs.find? (fun x => decide (x.handle = h)) with
  | none =>
    rw [retrieve_eq_of_find_none t h hfind] at hok
    exact absurd hok (by simp)
  | some j =>
    have hhandle : j.handle = h := by
      simpa using List.find?_some hfind
    rw [retrieve_eq_of_find_some t h j hfind] at hok
    by_cases hst : j.status = .succeeded
    · rw [if_pos hst] at hok
      cases hcache : j.retrievedLocation with
      | some loc0 =>
        rw [hcache] at hok
        simp only [Except.ok.injEq, Prod.mk.injEq] at hok
        obtain ⟨ht', hloc⟩ := hok
        subst ht'
        subst hloc
        rw [retrieve_eq_of_find_some t h j hfind, if_pos hst, hcache]
      | none =>
        rw [hcache] at hok
        simp only [Except.ok.injEq, Prod.mk.injEq] at hok
        obtain ⟨ht', hloc⟩ := hok
        subst hloc
        subst ht'
        have hfind' : (markRetrieved h (outputLocation j) t.jobs).find?
            (fun x => decide (x.handle = h)) =
            some { j with retrievedLocation := some (outputLocation j) } := by
          rw [find?_markRetrieved, hfind]
          simp [hhandle]
        rw [retrieve_eq_of_find_some _ h _ hfind']
        simp [hst]
    · rw [if_neg hst] at hok
      exact absurd hok (by simp)

/-- Exercises C6: after the first retrieval of the succeeded sample job, a
second retrieval returns the cached location 3 and the unchanged tracker
state (fetch count still 1). -/
theorem retrieve_salvus_simulations_idempotent_witness :
    retrieve_salvus_simulations sampleRetrievedTracker 3 =
      .ok (sampleRetrievedTracker, 3) :=
  retrieve_salvus_simulations_idempotent sampleDoneTracker 3
    sampleRetrievedTracker 3 rfl

/-! ## Preprocessing Pipeline theorems -/

/-- Processing preserves the station of a trace it keeps. -/
theorem process_station (cfg : ProcessConfig) (tr : RawTrace)
    (p : ProcessedTrace) (h : process cfg tr = some p) :
    p.station = tr.station := by
  unfold process at h
  split at h
  · exact absurd h (by simp)
  · cases h
    rfl

/-- C7: a raw trace that lacks required metadata (no instrument response or
a sample rate off the target beyond the tolerance) or fails the
signal-to-noise threshold is discarded — `process` returns `none` rather
than raising; the batch result is exactly the batch result without that
trace, so processing of the remaining traces continues; and when no other
trace of the batch shares its station, the discarded station is absent from
the stations reaching the subsequent window and misfit stages. -/
theorem process_discards_bad_traces (cfg : ProcessConfig) (tr : RawTrace)
    (l1 l2 : List RawTrace)
    (hbad : (lacksMetadata cfg tr || failsSnrCheck cfg tr) = true) :
    process cfg tr = none ∧
    process_data cfg (l1 ++ tr :: l2) = process_data cfg (l1 ++ l2) ∧
    ((∀ u ∈ l1 ++ l2, u.station ≠ tr.station) →
      tr.station ∉ downstreamStations cfg (l1 ++ tr :: l2)) := by
  have hnone : process cfg tr = none := by
    simp [process, hbad]
  refine ⟨hnone, ?_, ?_⟩
  · simp [process_data, List.filterMap_append, List.filterMap_cons, hnone]
  · intro hothers hmem
    simp only [downstreamStations, process_data, List.filterMap_append,
      List.filterMap_cons, hnone, List.map_append, List.mem_append,
      List.mem_map] at hmem
    rcases hmem with ⟨p, hp, hps⟩ | ⟨p, hp, hps⟩
    · obtain ⟨u, hu, hup⟩ := List.mem_filterMap.mp hp
      exact hothers u (List.mem_append.mpr (Or.inl hu))
        ((process_station cfg u p hup ▸ hps).symm ▸ rfl)
    · obtain ⟨u, hu, hup⟩ := List.mem_filterMap.mp hp
      exact hothers u (List.mem_append.mpr (Or.inr hu))
        ((process_station cfg u p hup ▸ hps).symm ▸ rfl)

/-- Exercises C7: the sample trace without instrument response is
discarded, the batch continues with the good trace, and station "AA" is
absent downstream. -/
theorem process_discards_bad_traces_witness :
    process sampleProcessConfig sampleBadTrace = none ∧
    process_data sampleProcessConfig
        ([sampleGoodTrace] ++ sampleBadTrace :: []) =
      process_data sampleProcessConfig ([sampleGoodTrace] ++ []) ∧
    sampleBadTrace.station ∉
      downstreamStations sampleProcessConfig
        ([sampleGoodTrace] ++ sampleBadTrace :: []) := by
  have h := process_discards_bad_traces sampleProcessConfig sampleBadTrace
    [sampleGoodTrace] [] (by decide)
  exact ⟨h.1, h.2.1, h.2.2 (by decide)⟩

/-! ## Window Selector theorems -/

/-- Membership in an insertion. -/
theorem mem_insertWindow {a x : ℚ × ℚ} {l : List (ℚ × ℚ)} :
    a ∈ insertWindow x l ↔ a = x ∨ a ∈ l := by
  induction l with
  | nil => simp [insertWindow]
  | cons y ys ih =>
    by_cases hxy : x.1 ≤ y.1
    · simp [insertWindow, hxy]
    · simp [insertWindow, hxy, ih]
      tauto

/-- Inserting into a start-sorted list keeps it start-sorted. -/
theorem sorted_insertWindow {x : ℚ × ℚ} {l : List (ℚ × ℚ)}
    (hl : StartSorted l) : StartSorted (insertWindow x l) := by
  induction l with
  | nil => simp [insertWindow, StartSorted]
  | cons y ys ih =>
    obtain ⟨hy, hys⟩ := List.pairwise_cons.mp hl
    by_cases hxy : x.1 ≤ y.1
    · simp only [insertWindow]
      rw [if_pos hxy]
      refine List.pairwise_cons.mpr ⟨?_, hl⟩
      intro z hz
      rcases List.mem_cons.mp hz with h | h
      · exact h ▸ hxy
      · exact le_trans hxy (hy z h)
    · simp only [insertWindow]
      rw [if_neg hxy]
      refine List.pairwise_cons.mpr ⟨?_, ih hys⟩
      intro z hz
      rcases mem_insertWindow.mp hz with h | h
      · exact h ▸ le_of_not_le hxy
      · exact hy z h

/-- The insertion sort by start time sorts. -/
theorem sorted_sortWindows (l : List (ℚ × ℚ)) : StartSorted (sortWindows l) := by
  induction l with
  | nil => exact List.Pairwise.nil
  | cons x xs ih => exact sorted_insertWindow ih

/-- Sorting preserves the collection of windows. -/
theorem mem_sortWindows {a : ℚ × ℚ} {l : List (ℚ × ℚ)} :
    a ∈ sortWindows l ↔ a ∈ l := by
  induction l with
  | nil => simp [sortWindows]
  | cons x xs ih => simp [sortWindows, mem_insertWindow, ih]

/-- Every start time of a merged window is the start time of an input
window. -/
theorem mergeWindows_starts {l : List (ℚ × ℚ)} {v : ℚ × ℚ}
    (hv : v ∈ mergeWindows l) : ∃ u ∈ l, u.1 = v.1 := by
  induction l using mergeWindows.induct with
  | case1 => simp [mergeWindows] at hv
  | case2 a =>
    simp [mergeWindows] at hv
    exact ⟨a, by simp, by rw [hv]⟩
  | case3 a b rest h ih =>
    rw [mergeWindows, if_pos h] at hv
    obtain ⟨u, hu, hue⟩ := ih hv
    rcases List.mem_cons.mp hu with h' | h'
    · exact ⟨a, by simp, by rw [h'] at hue; exact hue⟩
    · exact ⟨u, by simp [h'], hue⟩
  | case4 a b rest h ih =>
    rw [mergeWindows, if_neg h] at hv
    rcases List.mem_cons.mp hv with h' | h'
    · exact ⟨a, by simp, by rw [h']⟩
    · obtain ⟨u, hu, hue⟩ := ih h'
      exact ⟨u, by simp [List.mem_cons.mp hu], hue⟩

/-- Merging preserves window validity and containment in the trace
bounds. -/
theorem mergeWindows_bounded {D : ℚ} {l : List (ℚ × ℚ)}
    (hl : ∀ u ∈ l, 0 ≤ u.1 ∧ u.1 < u.2 ∧ u.2 ≤ D) :
    ∀ v ∈ mergeWindows l, 0 ≤ v.1 ∧ v.1 < v.2 ∧ v.2 ≤ D := by
  induction l using mergeWindows.induct with
  | case1 => simp [mergeWindows]
  | case2 a => simpa [mergeWindows] using hl
  | case3 a b rest h ih =>
    intro v hv
    rw [mergeWindows, if_pos h] at hv
    refine ih ?_ v hv
    intro u hu
    rcases List.mem_cons.mp hu with h' | h'
    · obtain ⟨ha0, ha1, ha2⟩ := hl a (by simp)
      obtain ⟨hb0, hb1, hb2⟩ := hl b (by simp)
      subst h'
      exact ⟨ha0, lt_of_lt_of_le ha1 (le_max_left _ _), max_le ha2 hb2⟩
    · exact hl u (by simp [h'])
  | case4 a b rest h ih =>
    intro v hv
    rw [mergeWindows, if_neg h] at hv
    rcases List.mem_cons.mp hv with h' | h'
    · exact h' ▸ hl a (by simp)
    · refine ih (fun u hu => hl u ?_) v h'
      rcases List.mem_cons.mp hu with h'' | h'' <;> simp [h'']

/-- Merging a start-sorted list yields strictly separated windows: each
window ends before the next one starts, so the result is pairwise disjoint
and sorted. -/
theorem mergeWindows_disjoint {l : List (ℚ × ℚ)} (hl : StartSorted l) :
    List.Pairwise (fun u v : ℚ × ℚ => u.2 < v.1) (mergeWindows l) := by
  induction l using mergeWindows.induct with
  | case1 => simp [mergeWindows]
  | case2 a => simp [mergeWindows]
  | case3 a b rest h ih =>
    rw [mergeWindows, if_pos h]
    obtain ⟨ha, hrest⟩ := List.pairwise_cons.mp hl
    refine ih (List.pairwise_cons.mpr ⟨?_, (List.pairwise_cons.mp hrest).2⟩)
    intro u hu
    exact ha u (by simp [hu])
  | case4 a b rest h ih =>
    rw [mergeWindows, if_neg h]
    obtain ⟨ha, hrest⟩ := List.pairwise_cons.mp hl
    refine List.pairwise_cons.mpr ⟨?_, ih hrest⟩
    intro v hv
    obtain ⟨u, hu, hue⟩ := mergeWindows_starts hv
    have hab : a.2 < b.1 := lt_of_not_ge h
    rcases List.mem_cons.mp hu with h' | h'
    · rw [← hue, h']
      exact hab
    · rw [← hue]
      exact lt_of_lt_of_le hab ((List.pairwise_cons.mp hrest).1 u h')

/-- C2: for every candidate list, `select_windows` returns windows each
satisfying `0 ≤ start < end ≤ trace_duration`, pairwise disjoint (each
window ends strictly before the next starts) and sorted by start time; a
trace pair with no qualifying segment yields the empty sequence rather
than an error. -/
theorem select_windows_well_formed (duration : ℚ) (cfg : WindowConfig)
    (cands : List CandidateSegment) :
    (∀ w ∈ select_windows duration cfg cands,
      0 ≤ w.1 ∧ w.1 < w.2 ∧ w.2 ≤ duration) ∧
    List.Pairwise (fun u v : ℚ × ℚ => u.2 < v.1)
      (select_windows duration cfg cands) ∧
    List.Pairwise (fun u v : ℚ × ℚ => u.1 < v.1)
      (select_windows duration cfg cands) ∧
    ((∀ c ∈ cands, (passesPhaseTest cfg c && passesSnrTest cfg c) = false) →
      select_windows duration cfg cands = []) := by
  have hvalid : ∀ u ∈ (cands.filter
        (fun c => passesPhaseTest cfg c && passesSnrTest cfg c)).map
          (fun c => (max 0 c.startTime, min duration c.endTime))
      |>.filter (fun w => decide (w.1 < w.2)),
      0 ≤ u.1 ∧ u.1 < u.2 ∧ u.2 ≤ duration := by
    intro u hu
    obtain ⟨humem, hult⟩ := List.mem_filter.mp hu
    obtain ⟨c, _, hc⟩ := List.mem_map.mp humem
    refine ⟨?_, by simpa using hult, ?_⟩
    · rw [← hc]
      exact le_max_left _ _
    · rw [← hc]
      exact min_le_left _ _
  have hsortmem : ∀ u ∈ sortWindows ((cands.filter
        (fun c => passesPhaseTest cfg c && passesSnrTest cfg c)).map
          (fun c => (max 0 c.startTime, min duration c.endTime))
      |>.filter (fun w => decide (w.1 < w.2))),
      0 ≤ u.1 ∧ u.1 < u.2 ∧ u.2 ≤ duration :=
    fun u hu => hvalid u (mem_sortWindows.mp hu)
  have hsorted := sorted_sortWindows ((cands.filter
        (fun c => passesPhaseTest cfg c && passesSnrTest cfg c)).map
          (fun c => (max 0 c.startTime, min duration c.endTime))
      |>.filter (fun w => decide (w.1 < w.2)))
  have hbounded := mergeWindows_bounded hsortmem
  have hdisj := mergeWindows_disjoint hsorted
  refine ⟨hbounded, hdisj, ?_, ?_⟩
  · refine List.Pairwise.imp_of_mem ?_ hdisj
    intro u v hu _ huv
    exact lt_trans (hbounded u hu).2.1 huv
  · intro hnoq
    have hfil : cands.filter
        (fun c => passesPhaseTest cfg c && passesSnrTest cfg c) = [] :=
      List.filter_eq_nil_iff.mpr (by simpa using hnoq)
    simp [select_windows, hfil, sortWindows, mergeWindows]

/-- Exercises C2: a passing candidate yields well-formed windows, a
failing candidate yields the empty sequence. -/
theorem select_windows_well_formed_witness :
    (∀ w ∈ select_windows 10 sampleWindowConfig [sampleGoodSegment],
      0 ≤ w.1 ∧ w.1 < w.2 ∧ w.2 ≤ 10) ∧
    select_windows 10 sampleWindowConfig [sampleBadSegment] = [] :=
  ⟨(select_windows_well_formed 10 sampleWindowConfig [sampleGoodSegment]).1,
    (select_windows_well_formed 10 sampleWindowConfig
      [sampleBadSegment]).2.2.2 (by
        intro c hc
        simp only [List.mem_singleton] at hc
        subst hc
        have hsnr : ¬ (sampleWindowConfig.snrThreshold ≤ sampleBadSegment.snr) := by
          simp [sampleWindowConfig, sampleBadSegment]
        simp [passesSnrTest, hsnr])⟩

/-! ## Misfit Engine theorems -/

/-- The adjoint source built by the L2 measurement pass has one sample per
paired input sample. -/
theorem l2MeasureAux_snd_length (o : List ℚ) :
    ∀ (s : List ℚ) (i : ℕ) (w : ℕ × ℕ),
    (l2MeasureAux o s i w).2.length = min o.length s.length := by
  induction o with
  | nil =>
    intro s i w
    cases s <;> simp [l2MeasureAux]
  | cons x xs ih =>
    intro s i w
    cases s with
    | nil => simp [l2MeasureAux]
    | cons y ys =>
      by_cases hc : w.1 ≤ i ∧ i < w.2 <;>
        · simp [l2MeasureAux, hc, ih]
          omega

/-- Sample `j` of the adjoint source built from absolute index `i` is the
synthetic-minus-observed difference when `i + j` lies in the window and 0
otherwise. -/
theorem l2MeasureAux_snd_getD (o : List ℚ) :
    ∀ (s : List ℚ) (i j : ℕ) (w : ℕ × ℕ), j < min o.length s.length →
    (l2MeasureAux o s i w).2.getD j 0 =
      if w.1 ≤ i + j ∧ i + j < w.2 then s.getD j 0 - o.getD j 0 else 0 := by
  induction o with
  | nil =>
    intro s i j w hj
    simp at hj
  | cons x xs ih =>
    intro s i j w hj
    cases s with
    | nil => simp at hj
    | cons y ys =>
      cases j with
      | zero =>
        by_cases hc : w.1 ≤ i ∧ i < w.2 <;> simp [l2MeasureAux, hc]
      | succ m =>
        have hm : m < min xs.length ys.length := by
          simp at hj
          omega
        have hrec := ih ys (i + 1) m w hm
        rw [show i + 1 + m = i + (m + 1) from by omega] at hrec
        by_cases hc : w.1 ≤ i ∧ i < w.2 <;>
          · simp only [l2MeasureAux, hc, if_true, if_false, and_self,
              List.getD_cons_succ]
            simpa [hc] using hrec

/-- The accumulated misfit of the L2 measurement pass started at absolute
index `i` is the sum of the squared differences over the in-window sample
indices. -/
theorem l2MeasureAux_fst (o : List ℚ) :
    ∀ (s : List ℚ) (i : ℕ) (w : ℕ × ℕ),
    (l2MeasureAux o s i w).1 =
      (((List.range' i (min o.length s.length)).filter
          (fun j => decide (w.1 ≤ j ∧ j < w.2))).map
        (fun j => (s.getD (j - i) 0 - o.getD (j - i) 0) ^ 2)).sum := by
  induction o with
  | nil =>
    intro s i w
    cases s <;> simp [l2MeasureAux]
  | cons x xs ih =>
    intro s i w
    cases s with
    | nil => simp [l2MeasureAux]
    | cons y ys =>
      have hmin : min (xs.length + 1) (ys.length + 1) =
          min xs.length ys.length + 1 := by omega
      have htail : ((List.range' (i + 1) (min xs.length ys.length)).filter
            (fun j => decide (w.1 ≤ j ∧ j < w.2))).map
            (fun j => ((y :: ys).getD (j - i) 0 -
              (x :: xs).getD (j - i) 0) ^ 2) =
          ((List.range' (i + 1) (min xs.length ys.length)).filter
            (fun j => decide (w.1 ≤ j ∧ j < w.2))).map
            (fun j => (ys.getD (j - (i + 1)) 0 -
              xs.getD (j - (i + 1)) 0) ^ 2) := by
        refine List.map_congr_left ?_
        intro j hjf
        have hij : i + 1 ≤ j :=
          (List.mem_range'_1.mp (List.mem_filter.mp hjf).1).1
        rw [show j - i = (j - (i + 1)) + 1 from by omega]
        rfl
      simp only [List.length_cons, hmin, List.range'_succ, List.filter_cons]
      by_cases hc : w.1 ≤ i ∧ i < w.2
      · have hcond : decide (w.1 ≤ i ∧ i < w.2) = true := by simp [hc]
        simp only [hcond, eq_self_iff_true, if_true, List.map_cons,
          List.sum_cons, htail, ← ih ys (i + 1) w]
        have hstep : (l2MeasureAux (x :: xs) (y :: ys) i w).1
            = (y - x) ^ 2 + (l2MeasureAux xs ys (i + 1) w).1 := by
          simp [l2MeasureAux, hc]
        rw [hstep]
        congr 1
        simp
      · have hcond : decide (w.1 ≤ i ∧ i < w.2) = false := by simp [hc]
        simp only [hcond, Bool.false_eq_true, if_false, htail,
          ← ih ys (i + 1) w]
        have hstep : (l2MeasureAux (x :: xs) (y :: ys) i w).1
            = (l2MeasureAux xs ys (i + 1) w).1 := by
          simp [l2MeasureAux, hc]
        rw [hstep]

/-- C1: the Waveform L2 measurement produces an adjoint source trace of the
same length as the synthetic trace that is exactly zero at every sample
outside the window and equals `synthetic − observed` at every sample
inside it, and a misfit equal to one half times the discretised integral
(sample spacing `dt`) of the squared difference over the window. -/
theorem measure_waveform_l2_spec (observed synthetic : List ℚ)
    (h : observed.length = synthetic.length) (w : ℕ × ℕ) (dt : ℚ) :
    (measure_waveform_l2 observed synthetic w dt).2.length =
      synthetic.length ∧
    (∀ i, i < synthetic.length →
      (measure_waveform_l2 observed synthetic w dt).2.getD i 0 =
        if w.1 ≤ i ∧ i < w.2 then
          synthetic.getD i 0 - observed.getD i 0 else 0) ∧
    (measure_waveform_l2 observed synthetic w dt).1 =
      1 / 2 * dt *
        (((List.range synthetic.length).filter
            (fun i => decide (w.1 ≤ i ∧ i < w.2))).map
          (fun i => (synthetic.getD i 0 - observed.getD i 0) ^ 2)).sum := by
  have hmin : min observed.length synthetic.length = synthetic.length := by
    rw [h]
    exact Nat.min_self _
  refine ⟨?_, ?_, ?_⟩
  · rw [show (measure_waveform_l2 observed synthetic w dt).2 =
        (l2MeasureAux observed synthetic 0 w).2 from rfl]
    rw [l2MeasureAux_snd_length observed synthetic 0 w, hmin]
  · intro i hi
    have := l2MeasureAux_snd_getD observed synthetic 0 i w
      (by rw [hmin]; exact hi)
    simpa [measure_waveform_l2] using this
  · have hfst := l2MeasureAux_fst observed synthetic 0 w
    rw [hmin] at hfst
    have hrange : List.range' 0 synthetic.length =
        List.range synthetic.length :=
      (List.range_eq_range' synthetic.length).symm
    rw [hrange] at hfst
    simp only [Nat.sub_zero] at hfst
    rw [show (measure_waveform_l2 observed synthetic w dt).1 =
        1 / 2 * dt * (l2MeasureAux observed synthetic 0 w).1 from rfl, hfst]

/-- Exercises C1 on concrete three-sample traces with the window covering
only the middle sample: the middle adjoint sample is the difference, the
others are zero, and the misfit is half the windowed squared difference
times `dt`. -/
theorem measure_waveform_l2_spec_witness :
    (measure_waveform_l2 [1, 2, 3] [2, 4, 6] (1, 2) (1 / 2)).2.getD 0 0 = 0 ∧
    (measure_waveform_l2 [1, 2, 3] [2, 4, 6] (1, 2) (1 / 2)).2.getD 1 0 = 2 ∧
    (measure_waveform_l2 [1, 2, 3] [2, 4, 6] (1, 2) (1 / 2)).2.getD 2 0 = 0 := by
  have h := (measure_waveform_l2_spec [1, 2, 3] [2, 4, 6] rfl (1, 2) (1 / 2)).2.1
  refine ⟨?_, ?_, ?_⟩
  · have h0 := h 0 (by norm_num)
    simpa using h0
  · have h1 := h 1 (by norm_num)
    rw [h1]
    norm_num
  · have h2 := h 2 (by norm_num)
    simpa using h2

end Lasif
